import Mathlib

/-!
Shallow embedding of the chatlite repository: the server (src/chatlite.c)
and the client-side wire codec (src/chatlite_client.c).

Conventions of the embedding:
- C byte buffers are modelled as `List Char`; the NUL byte is `nulC`.
- A C string read of a buffer is `cstr` (the bytes before the first NUL).
- The client table `Client *clients[MAX_CLIENTS]` is modelled as a total map
  `Nat → Option Client`; the C array has declared bounds 0 .. MAX_CLIENTS - 1,
  and a store at an index outside that range models the out-of-bounds write
  the C code would perform (flat-memory semantics).
- `size_t` arithmetic wraps at 2 ^ 64, written explicitly where it matters.
- Bytes of a freshly allocated Client past the ones snprintf writes are
  modelled as NUL; no claim below depends on their value.
-/

set_option maxRecDepth 100000

namespace Chatlite

def nulC : Char := Char.ofNat 0

def MAX_CLIENTS : Nat := 1024

def NICK_MAXLEN : Nat := 32

def crlf : List Char := ['\r', '\n']

/-- C's isspace on the default locale: space, \t, \n, \v, \f, \r. -/
def isspaceC (c : Char) : Bool :=
  c == ' ' || c == '\t' || c == '\n' || c == Char.ofNat 11 || c == Char.ofNat 12 || c == '\r'

/-- The bytes of a buffer before the first NUL: what strlen/%s-style reads see. -/
def cstr (l : List Char) : List Char := l.takeWhile (· != nulC)

/-- Client struct of chatlite.c: an fd and a 32-byte nick buffer.
`nick` lists the bytes stored starting at the nick field; a list longer than
NICK_MAXLEN models a write running past the declared field. -/
structure Client where
  fd : Nat
  nick : List Char
deriving DecidableEq

/-- Server struct of chatlite.c: listening fd and the client slot table. -/
structure Server where
  fd : Nat
  clients : Nat → Option Client

/-- The display name of a client: the C string held in its nick buffer. -/
def displayName (c : Client) : List Char := cstr c.nick

/-- The default nickname written at registration: snprintf(c->nick, 32, "anon:%d", fd). -/
def anonNick (fd : Nat) : List Char := "anon:".toList ++ (toString fd).toList

/-- The client built in main on accept (lines 329-331): malloc, set fd,
snprintf the default nick. snprintf writes at most 31 bytes plus a NUL. -/
def mkClient (fd : Nat) : Client :=
  { fd := fd,
    nick := (anonNick fd).take (NICK_MAXLEN - 1)
      ++ List.replicate (NICK_MAXLEN - ((anonNick fd).take (NICK_MAXLEN - 1)).length) nulC }

/-- Registration of an accepted descriptor (main, line 332):
server.clients[client_fd] = c, with no capacity or bounds check. -/
def register (s : Server) (fd : Nat) : Server :=
  { s with clients := fun k => if k = fd then some (mkClient fd) else s.clients k }

/-- trim_string of chatlite.c on the C string held in a buffer: skip leading
whitespace; if nothing remains return the empty string (buffer untouched),
else drop trailing whitespace (a NUL is written after the kept part). -/
def trim_string (s : List Char) : List Char :=
  if s.dropWhile isspaceC = [] then []
  else ((s.dropWhile isspaceC).reverse.dropWhile isspaceC).reverse

/-- The n bytes strncpy(dst, src, n) stores: src up to its NUL, truncated to n,
then NUL padding up to n bytes in total. -/
def strncpyWrite (src : List Char) (n : Nat) : List Char :=
  (cstr src).take n ++ List.replicate (n - (cstr src).length) nulC

/-- Effect of strncpy(dst, src, n) on a destination buffer, flat-memory view:
the first n bytes are replaced, later bytes kept. If n exceeds the buffer the
result is longer than the buffer: the out-of-bounds write. -/
def strncpyInto (dest src : List Char) (n : Nat) : List Char :=
  strncpyWrite src n ++ dest.drop n

/-- The /nick handler body (main, lines 381-386), acting on the addressed
client. `raw` is buf + 5, the bytes after the command token.
  strncpy(raw_nick, buf + 5, nread); nick = trim_string(raw_nick);
  strncpy(c->nick, nick, strlen(raw_nick));
After trim_string, strlen(raw_nick) is the length of the leading whitespace
plus the trimmed name (the trailing NUL was moved), or the untouched length
when everything was whitespace. -/
def nickCopyLen (raw : List Char) : Nat :=
  if trim_string (cstr raw) = [] then (cstr raw).length
  else ((cstr raw).takeWhile isspaceC).length + (trim_string (cstr raw)).length

def handleNick (c : Client) (raw : List Char) : Client :=
  { c with nick := strncpyInto c.nick (trim_string (cstr raw)) (nickCopyLen raw) }

/-- snprintf(msg, 256, "%s\r\n%s", sender, body) in broadcast_message:
the buffer keeps at most 255 content bytes, the return value is the length
the full string would have had. -/
def encodeFrame (sender body : List Char) : List Char × Nat :=
  ((sender ++ crlf ++ body).take 255, (sender ++ crlf ++ body).length)

/-- The nick of server.clients[fd], the sender slot broadcast_message reads. -/
def senderName (s : Server) (fd : Nat) : List Char :=
  match s.clients fd with
  | some c => displayName c
  | none => []

/-- broadcast_message (lines 257-276): for every occupied slot i other than
the sender index fd, format the frame and write it. The result lists, per
recipient in slot order, the frame buffer contents and the byte count passed
to write (snprintf's return value, NOT clamped to the buffer size). -/
def broadcast_message (s : Server) (body : List Char) (fd : Nat) (serverInfo : Bool) :
    List (Nat × List Char × Nat) :=
  ((List.range MAX_CLIENTS).filter fun i => (s.clients i).isSome && i != fd).map
    fun i => (i, encodeFrame (if serverInfo then "Server".toList else senderName s fd) body)

/-- Classification of an inbound read by the event loop (main, lines 365-387):
strncmp(buf, "/quit", 5), then strncmp(buf, "/nick", 5), else chat. -/
inductive Action where
  | quit : Action
  | nick : List Char → Action
  | chat : List Char → Action
deriving DecidableEq

def classify (bytes : List Char) : Action :=
  if bytes.take 5 = "/quit".toList then .quit
  else if bytes.take 5 = "/nick".toList then .nick (bytes.drop 5)
  else .chat bytes

/-- State the event loop manipulates besides the Server: the epoll interest
set and, for leak/dangling analysis, the identifiers whose Client allocation
has been freed. -/
structure LoopState where
  server : Server
  epollSet : List Nat
  freed : List Nat

/-- Outcome of read(fd, buf, 255) on a client socket: a negative return, or
nread bytes (possibly zero). -/
inductive ReadOutcome where
  | err : ReadOutcome
  | data : List Char → ReadOutcome

/-- The body broadcast on /quit: snprintf(buf, strlen(nick) + 7, "%s left\n", nick),
which fits exactly. -/
def quitBody (s : Server) (fd : Nat) : List Char :=
  senderName s fd ++ " left\n".toList

/-- One readable-client iteration of the event loop (main, lines 357-393).
Returns the next state and the list of (recipient, frame, count) writes.
- read < 0 (lines 359-362): close(fd) — which drops the descriptor from the
  epoll interest set — and free the Client; server.clients[fd] is NOT cleared.
- read >= 0: buf is NUL-terminated at nread and classified:
  - /quit: epoll DEL, broadcast the left notice (sender slot still occupied,
    skipped by index), close, free, clients[fd] = NULL.
  - /nick: rewrite the addressed client's nick via handleNick.
  - otherwise: broadcast the C string in buf as a chat message. -/
def handleClientEvent (st : LoopState) (fd : Nat) (out : ReadOutcome) :
    LoopState × List (Nat × List Char × Nat) :=
  match out with
  | .err =>
      ({ st with epollSet := st.epollSet.erase fd, freed := fd :: st.freed }, [])
  | .data bytes =>
      match classify bytes with
      | .quit =>
          let msgs := broadcast_message st.server (quitBody st.server fd) fd true
          ({ server := { st.server with
               clients := fun k => if k = fd then none else st.server.clients k },
             epollSet := st.epollSet.erase fd,
             freed := fd :: st.freed }, msgs)
      | .nick raw =>
          ({ st with server := { st.server with
               clients := fun k =>
                 if k = fd then (st.server.clients fd).map (fun c => handleNick c raw)
                 else st.server.clients k } }, [])
      | .chat line =>
          (st, broadcast_message st.server (cstr line) fd false)

/-! The client-side codec, src/chatlite_client.c. -/

/-- One more than the largest size_t value. -/
def U64 : Nat := 2 ^ 64

/-- The memory effects of message_parse (chatlite_client.c, lines 269-286):
which indices of msg->nick (a char[32]) get written, where the closing NUL
goes, and the offset and length of the memcpy into msg->content, with the
size_t length arithmetic wrapping at 2^64. The return value is always 0. -/
structure ParseEffect where
  nickWrites : List Nat
  nulIdx : Nat
  memcpySrcOff : Nat
  memcpyLen : Nat
  ret : Int
deriving DecidableEq

def message_parse (buf : List Char) (len : Nat) : ParseEffect :=
  match (buf.take len).findIdx? (· == '\r') with
  | some p =>
      -- loop copied buf[0..p-1] into nick, broke at the '\r'; len was
      -- decremented p+1 times, then len -= 2 and i += 2 before the memcpy
      { nickWrites := List.range p
        nulIdx := p + 1
        memcpySrcOff := p + 2
        memcpyLen := ((len - (p + 1)) + (U64 - 2)) % U64
        ret := 0 }
  | none =>
      -- loop copied all len bytes; the final len-- wrapped len to 2^64 - 1,
      -- then len -= 2 gives 2^64 - 3 for the memcpy
      { nickWrites := List.range len
        nulIdx := len + 1
        memcpySrcOff := len + 2
        memcpyLen := U64 - 3
        ret := 0 }

/-! Helper lemmas shared by the claim theorems. -/

theorem takeWhile_append_all {p : Char → Bool} {l1 : List Char} (l2 : List Char)
    (h : ∀ a ∈ l1, p a = true) :
    (l1 ++ l2).takeWhile p = l1 ++ l2.takeWhile p := by
  induction l1 with
  | nil => rfl
  | cons a l ih =>
      simp only [List.cons_append, List.takeWhile_cons, h a (List.mem_cons_self a l),
        ih (fun b hb => h b (List.mem_cons_of_mem a hb)), if_true]

theorem cstr_of_all {l : List Char} (h : ∀ a ∈ l, (a != nulC) = true) : cstr l = l := by
  have h2 := takeWhile_append_all [] h
  simpa [cstr] using h2

theorem mem_cstr {a : Char} {l : List Char} (h : a ∈ cstr l) : a ∈ l ∧ (a != nulC) = true := by
  unfold cstr at h
  have hp := List.mem_takeWhile_imp h
  exact ⟨List.Sublist.mem h (List.takeWhile_sublist _), hp⟩

theorem mem_trim {a : Char} {l : List Char} (h : a ∈ trim_string l) : a ∈ l := by
  unfold trim_string at h
  by_cases hr : l.dropWhile isspaceC = []
  · rw [if_pos hr] at h; cases h
  · rw [if_neg hr] at h
    have h2 := List.mem_reverse.1 h
    have h3 := List.Sublist.mem h2 (List.dropWhile_sublist _)
    have h4 := List.mem_reverse.1 h3
    exact List.Sublist.mem h4 (List.dropWhile_sublist _)

theorem mem_broadcast {s : Server} {body : List Char} {fd : Nat} {b : Bool}
    {r : Nat × List Char × Nat} (hr : r ∈ broadcast_message s body fd b) :
    r.1 < MAX_CLIENTS ∧ (s.clients r.1).isSome = true ∧ r.1 ≠ fd ∧
    r.2 = encodeFrame (if b then "Server".toList else senderName s fd) body := by
  rcases List.mem_map.1 hr with ⟨i, hi, rfl⟩
  rcases List.mem_filter.1 hi with ⟨hir, hp⟩
  rw [Bool.and_eq_true] at hp
  exact ⟨List.mem_range.1 hir, hp.1, bne_iff_ne.1 hp.2, rfl⟩

theorem broadcast_map_fst (s : Server) (body : List Char) (fd : Nat) (b : Bool) :
    (broadcast_message s body fd b).map (fun r => r.1) =
      (List.range MAX_CLIENTS).filter (fun i => (s.clients i).isSome && i != fd) := by
  simp only [broadcast_message, List.map_map]
  exact List.map_id _

theorem encodeFrame_of_fit {sender body : List Char}
    (h : sender.length + 2 + body.length ≤ 255) :
    encodeFrame sender body = (sender ++ crlf ++ body, sender.length + 2 + body.length) := by
  have hl : (sender ++ crlf ++ body).length = sender.length + 2 + body.length := by
    simp [crlf]; omega
  unfold encodeFrame
  rw [List.take_of_length_le (by rw [hl]; exact h), hl]

/-! Claim theorems. -/

/-- Concrete state for C1: every slot of the declared table occupied. -/
def fullServer : Server :=
  { fd := 0, clients := fun k => if k < MAX_CLIENTS then some (mkClient k) else none }

/-- C1: the spec requires the accept exceeding the registry capacity to be
rejected rather than stored. The code has no capacity check at all: with all
MAX_CLIENTS slots occupied, registering the next descriptor (value
MAX_CLIENTS, the smallest free one) stores the new client at index
MAX_CLIENTS — in C a write past the end of the clients array — instead of
rejecting the connection. -/
theorem C1_register_no_capacity_check :
    (fullServer.clients (MAX_CLIENTS - 1)).isSome = true ∧
    fullServer.clients MAX_CLIENTS = none ∧
    (register fullServer MAX_CLIENTS).clients MAX_CLIENTS = some (mkClient MAX_CLIENTS) := by
  decide

/-- Concrete state for C3: clients in slots 4 and 7. -/
def srvC3 : Server :=
  { fd := 0,
    clients := fun k =>
      if k = 4 then some (mkClient 4) else if k = 7 then some (mkClient 7) else none }

def stC3 : LoopState := { server := srvC3, epollSet := [4, 7], freed := [] }

/-- C3: the claim (and spec) require full teardown on any read returning
a value ≤ 0 other than would-block. The code diverges twice: a read of 0
(orderly EOF) is handled as an ordinary message — the empty line is
broadcast as chat and no teardown happens at all — and a negative read
closes and frees the Client but never clears server.clients[fd], so the
registry slot stays occupied by a freed (dangling) pointer. -/
theorem C3_read_le_zero_no_teardown :
    ((handleClientEvent stC3 4 (.data [])).1.server.clients 4 = some (mkClient 4)) ∧
    ((handleClientEvent stC3 4 (.data [])).1.epollSet = [4, 7]) ∧
    ((handleClientEvent stC3 4 (.data [])).2 = [(7, "anon:4".toList ++ crlf, 8)]) ∧
    ((handleClientEvent stC3 4 .err).1.server.clients 4 = some (mkClient 4)) ∧
    (4 ∈ (handleClientEvent stC3 4 .err).1.freed) := by
  decide

/-- Concrete state for C6: one client in slot 5. -/
def stC6 : LoopState :=
  { server := { fd := 0, clients := fun k => if k = 5 then some (mkClient 5) else none },
    epollSet := [5], freed := [] }

/-- The /nick line for C6: the command token followed by a 100-byte name. -/
def lineC6 : List Char := "/nick".toList ++ List.replicate 100 'a'

/-- C6: the claim says rename truncates the requested name so the display
name always fits NICK_MAXLEN = 32 bytes including the terminator. The code
never truncates to NICK_MAXLEN: a /nick with a 100-byte name copies 100
bytes into the 32-byte nick field (after already copying nread bytes into
the 32-byte raw_nick stack buffer), leaving a display name of length 100. -/
theorem C6_rename_overflows_nick :
    ((handleClientEvent stC6 5 (.data lineC6)).1.server.clients 5).map
        (fun c => c.nick.length) = some 100 ∧
    ((handleClientEvent stC6 5 (.data lineC6)).1.server.clients 5).map
        (fun c => (displayName c).length) = some 100 ∧
    ¬ (100 ≤ NICK_MAXLEN) := by
  decide

/-- Concrete state for C7: clients in slots 3 and 9. -/
def srvC7 : Server :=
  { fd := 0,
    clients := fun k =>
      if k = 3 then some (mkClient 3) else if k = 9 then some (mkClient 9) else none }

/-- C7: the claim says the number of bytes written per recipient never
exceeds the 256-byte encode buffer. broadcast_message passes snprintf's
return value — the length the frame would have had without truncation — to
write: for sender anon:3 and a 255-byte body that is 263 bytes, so write is
told to send 263 bytes from the 256-byte buffer. -/
theorem C7_write_count_exceeds_buffer :
    (broadcast_message srvC7 (List.replicate 255 'b') 3 false).map (fun r => r.2.2) = [263] ∧
    (broadcast_message srvC7 (List.replicate 255 'b') 3 false).map
        (fun r => r.2.1.length) = [255] ∧
    256 < 263 := by
  decide

/-- C8: the claim says a buffer with no CRLF within the maximum name length
decodes to a MalformedFrame failure with no out-of-bounds access.
message_parse has no failure path: on a 40-byte buffer with no CR it returns
0 (success), writes nick indices 0..39 plus the terminator at index 41 —
past the 32-byte nick field — and its size_t length wraps around so the
content memcpy is asked for 2^64 - 3 bytes. -/
theorem C8_parse_no_malformed_handling :
    (message_parse (List.replicate 40 'a') 40).ret = 0 ∧
    39 ∈ (message_parse (List.replicate 40 'a') 40).nickWrites ∧
    (message_parse (List.replicate 40 'a') 40).nulIdx = 41 ∧
    NICK_MAXLEN ≤ (message_parse (List.replicate 40 'a') 40).nulIdx ∧
    (message_parse (List.replicate 40 'a') 40).memcpyLen = 2 ^ 64 - 3 := by
  decide

/-- Concrete state for C2: clients in slots 1 and 2. -/
def srvC2 : Server :=
  { fd := 0,
    clients := fun k =>
      if k = 1 then some (mkClient 1) else if k = 2 then some (mkClient 2) else none }

def longBody : List Char := List.replicate 250 'a'

/-- C2 as stated is false: when the sender name, separator and body exceed
the 255 content bytes of the encode buffer, snprintf truncates the frame, so
the delivered body is not byte-for-byte the sent one. Sender anon:1 with a
250-byte body yields a 258-byte frame, of which only 255 bytes survive: the
recipient in slot 2 gets a frame whose body lost its last three bytes. -/
theorem C2_counterexample :
    broadcast_message srvC2 longBody 1 false =
      [(2, ("anon:1".toList ++ crlf ++ longBody).take 255, 258)] ∧
    ("anon:1".toList ++ crlf ++ longBody).take 255 ≠ "anon:1".toList ++ crlf ++ longBody ∧
    (("anon:1".toList ++ crlf ++ longBody).take 255).drop 8 ≠ longBody := by
  decide

/-- C2 (amended): for every chat message from a registered connection A whose
encoded frame (display name, CRLF separator, body) fits the 255 content bytes
of the encode buffer, broadcast delivers to every other registered connection
— each exactly once, in slot order — a frame carrying A's current display
name with the body byte-for-byte unchanged, and delivers nothing to A. -/
theorem C2_broadcast_verbatim (s : Server) (fd : Nat) (c : Client) (body : List Char)
    (hreg : s.clients fd = some c)
    (hfit : (displayName c).length + 2 + body.length ≤ 255) :
    (∀ r ∈ broadcast_message s body fd false,
        r.2.1 = displayName c ++ crlf ++ body ∧
        r.2.2 = (displayName c).length + 2 + body.length ∧ r.1 ≠ fd) ∧
    (broadcast_message s body fd false).map (fun r => r.1) =
      (List.range MAX_CLIENTS).filter (fun i => (s.clients i).isSome && i != fd) := by
  have hsn : senderName s fd = displayName c := by simp [senderName, hreg]
  constructor
  · intro r hr
    obtain ⟨_, _, hne, hframe⟩ := mem_broadcast hr
    rw [if_neg (by simp)] at hframe
    rw [hsn, encodeFrame_of_fit hfit] at hframe
    exact ⟨by rw [hframe], by rw [hframe], hne⟩
  · exact broadcast_map_fst s body fd false

/-- Witness for C2: in srvC2 the message hi from slot 1 reaches exactly
slot 2, unchanged and with the sender's name. -/
theorem C2_broadcast_verbatim_witness :
    (srvC2.clients 1 = some (mkClient 1)) ∧
    ((displayName (mkClient 1)).length + 2 + ("hi".toList).length ≤ 255) ∧
    (∀ r ∈ broadcast_message srvC2 "hi".toList 1 false,
        r.2.1 = displayName (mkClient 1) ++ crlf ++ "hi".toList ∧
        r.2.2 = (displayName (mkClient 1)).length + 2 + ("hi".toList).length ∧ r.1 ≠ 1) ∧
    (broadcast_message srvC2 "hi".toList 1 false).map (fun r => r.1) =
      (List.range MAX_CLIENTS).filter (fun i => (srvC2.clients i).isSome && i != 1) :=
  ⟨by decide, by decide,
    (C2_broadcast_verbatim srvC2 1 (mkClient 1) "hi".toList (by decide) (by decide)).1,
    (C2_broadcast_verbatim srvC2 1 (mkClient 1) "hi".toList (by decide) (by decide)).2⟩

/-- Concrete state for C10: one client in slot 5. -/
def stC10 : LoopState :=
  { server := { fd := 0, clients := fun k => if k = 5 then some (mkClient 5) else none },
    epollSet := [5], freed := [] }

/-- C10: command classification looks only at the first five bytes of the
read (strncmp with length 5). Any read starting with the five bytes /quit
takes the quit path — the slot is cleared — whatever follows; any read
starting with /nick takes the rename path, with everything after byte five
(no separating space required) as the requested name. -/
theorem C10_first_five_bytes (st : LoopState) (fd : Nat) (bytes : List Char) :
    (bytes.take 5 = "/quit".toList →
      classify bytes = .quit ∧
      (handleClientEvent st fd (.data bytes)).1.server.clients fd = none) ∧
    (bytes.take 5 = "/nick".toList →
      classify bytes = .nick (bytes.drop 5) ∧
      (handleClientEvent st fd (.data bytes)).1.server.clients fd =
        (st.server.clients fd).map (fun c => handleNick c (bytes.drop 5))) := by
  constructor
  · intro h
    have hcls : classify bytes = .quit := by
      unfold classify
      rw [h, if_pos rfl]
    refine ⟨hcls, ?_⟩
    simp only [handleClientEvent, hcls]
    simp
  · intro h
    have hcls : classify bytes = .nick (bytes.drop 5) := by
      unfold classify
      rw [h, if_neg (by decide), if_pos rfl]
    refine ⟨hcls, ?_⟩
    simp only [handleClientEvent, hcls]
    simp
/-- Witness for C10: the line /quitting disconnects slot 5; the line /nickBob
takes the rename path with Bob (plus the newline) as the requested name. -/
theorem C10_first_five_bytes_witness :
    ("/quitting\n".toList.take 5 = "/quit".toList ∧
      classify "/quitting\n".toList = .quit ∧
      (handleClientEvent stC10 5 (.data "/quitting\n".toList)).1.server.clients 5 = none) ∧
    ("/nickBob\n".toList.take 5 = "/nick".toList ∧
      classify "/nickBob\n".toList = .nick ("/nickBob\n".toList.drop 5) ∧
      (handleClientEvent stC10 5 (.data "/nickBob\n".toList)).1.server.clients 5 =
        (stC10.server.clients 5).map (fun c => handleNick c ("/nickBob\n".toList.drop 5))) :=
  ⟨⟨by decide, ((C10_first_five_bytes stC10 5 "/quitting\n".toList).1 (by decide)).1,
      ((C10_first_five_bytes stC10 5 "/quitting\n".toList).1 (by decide)).2⟩,
    ⟨by decide, ((C10_first_five_bytes stC10 5 "/nickBob\n".toList).2 (by decide)).1,
      ((C10_first_five_bytes stC10 5 "/nickBob\n".toList).2 (by decide)).2⟩⟩

/-- Concrete state for C4: clients in slots 2, 5 and 9. -/
def clientsC4 : Nat → Option Client := fun k =>
  if k = 2 then some (mkClient 2)
  else if k = 5 then some (mkClient 5)
  else if k = 9 then some (mkClient 9) else none

def stC4 : LoopState :=
  { server := { fd := 0, clients := clientsC4 }, epollSet := [2, 5, 9], freed := [] }

/-- C4: after a /quit line from a registered connection B, B's slot is empty
(so B is absent from every later broadcast snapshot), and every remaining
registered connection — each exactly once — receives the Server-framed left
notice carrying B's display name as it was at the time of the quit. -/
theorem C4_quit_teardown_and_notice (st : LoopState) (fd : Nat) (c : Client)
    (bytes : List Char)
    (hreg : st.server.clients fd = some c)
    (hq : bytes.take 5 = "/quit".toList)
    (hlen : (displayName c).length ≤ 241) :
    ((handleClientEvent st fd (.data bytes)).1.server.clients fd = none) ∧
    ((handleClientEvent st fd (.data bytes)).2.map (fun r => r.1) =
      (List.range MAX_CLIENTS).filter (fun i => (st.server.clients i).isSome && i != fd)) ∧
    (((handleClientEvent st fd (.data bytes)).2.map (fun r => r.1)).Nodup) ∧
    (∀ r ∈ (handleClientEvent st fd (.data bytes)).2,
        r.2.1 = "Server".toList ++ crlf ++ (displayName c ++ " left\n".toList) ∧ r.1 ≠ fd) ∧
    (∀ body fd2 b, fd ∉
      (broadcast_message (handleClientEvent st fd (.data bytes)).1.server body fd2 b).map
        (fun r => r.1)) := by
  have hcls : classify bytes = .quit := by unfold classify; rw [hq, if_pos rfl]
  have hqb : quitBody st.server fd = displayName c ++ " left\n".toList := by
    simp [quitBody, senderName, hreg]
  have h6 : ("Server".toList).length = 6 := rfl
  have h7 : (" left\n".toList).length = 6 := rfl
  have hfit : ("Server".toList).length + 2 +
      (displayName c ++ " left\n".toList).length ≤ 255 := by
    rw [List.length_append]
    omega
  simp only [handleClientEvent, hcls]
  refine ⟨by simp, broadcast_map_fst st.server _ fd true, ?_, ?_, ?_⟩
  · rw [broadcast_map_fst]
    exact List.Nodup.filter _ (List.nodup_range MAX_CLIENTS)
  · intro r hr
    obtain ⟨-, -, hne, hframe⟩ := mem_broadcast hr
    rw [if_pos rfl, hqb, encodeFrame_of_fit hfit] at hframe
    exact ⟨by rw [hframe], hne⟩
  · intro body fd2 b hmem
    rw [broadcast_map_fst] at hmem
    rcases List.mem_filter.1 hmem with ⟨-, hp⟩
    simp at hp

/-- Witness for C4: slot 5 quits in stC4; slots 2 and 9 each get one left
notice naming anon:5, and slot 5 is gone from the registry. -/
theorem C4_quit_teardown_and_notice_witness :
    (stC4.server.clients 5 = some (mkClient 5)) ∧
    ("/quit\n".toList.take 5 = "/quit".toList) ∧
    ((displayName (mkClient 5)).length ≤ 241) ∧
    ((handleClientEvent stC4 5 (.data "/quit\n".toList)).1.server.clients 5 = none) ∧
    ((handleClientEvent stC4 5 (.data "/quit\n".toList)).2.map (fun r => r.1) =
      (List.range MAX_CLIENTS).filter (fun i => (stC4.server.clients i).isSome && i != 5)) ∧
    (((handleClientEvent stC4 5 (.data "/quit\n".toList)).2.map (fun r => r.1)).Nodup) ∧
    (∀ r ∈ (handleClientEvent stC4 5 (.data "/quit\n".toList)).2,
        r.2.1 = "Server".toList ++ crlf ++
          (displayName (mkClient 5) ++ " left\n".toList) ∧ r.1 ≠ 5) ∧
    (∀ body fd2 b, 5 ∉
      (broadcast_message (handleClientEvent stC4 5 (.data "/quit\n".toList)).1.server
        body fd2 b).map (fun r => r.1)) := by
  have h := C4_quit_teardown_and_notice stC4 5 (mkClient 5) "/quit\n".toList
    (by decide) (by decide) (by decide)
  exact ⟨by decide, by decide, by decide, h.1, h.2.1, h.2.2.1, h.2.2.2.1, h.2.2.2.2⟩

/-- The rename line of claim C5: the name Alice surrounded by whitespace. -/
def nickAliceLine : List Char := "/nick   Alice  ".toList

/-- Concrete state for C5: clients in slots 1 and 3. -/
def clientsC5 : Nat → Option Client := fun k =>
  if k = 1 then some (mkClient 1) else if k = 3 then some (mkClient 3) else none

def stC5 : LoopState :=
  { server := { fd := 0, clients := clientsC5 }, epollSet := [1, 3], freed := [] }

/-- C5: after a registered connection sends the line /nick followed by Alice
surrounded by whitespace, its display name is exactly Alice (whitespace
trimmed), and any subsequent chat line from it reaches every other
registered connection — never the sender — in a frame whose sender-name
part (the bytes before the CR separator) is exactly Alice. -/
theorem C5_nick_trimmed_alice (st : LoopState) (fd : Nat) (c : Client) (line : List Char)
    (hreg : st.server.clients fd = some c)
    (hchat : classify line = .chat line) :
    (((handleClientEvent st fd (.data nickAliceLine)).1.server.clients fd).map displayName =
      some "Alice".toList) ∧
    (∀ r ∈ (handleClientEvent (handleClientEvent st fd (.data nickAliceLine)).1 fd
        (.data line)).2,
        r.2.1 = "Alice".toList ++ crlf ++ (cstr line).take 248 ∧
        r.2.1.takeWhile (· != '\r') = "Alice".toList ∧
        r.1 ≠ fd) ∧
    ((handleClientEvent (handleClientEvent st fd (.data nickAliceLine)).1 fd
        (.data line)).2.map (fun r => r.1) =
      (List.range MAX_CLIENTS).filter (fun i => (st.server.clients i).isSome && i != fd)) := by
  have hcls1 : classify nickAliceLine = .nick ("   Alice  ".toList) := by decide
  have h1 : (handleClientEvent st fd (.data nickAliceLine)).1.server.clients fd =
      some (handleNick c ("   Alice  ".toList)) := by
    simp only [handleClientEvent, hcls1]
    simp [hreg]
  have h1b : ∀ i, i ≠ fd →
      (handleClientEvent st fd (.data nickAliceLine)).1.server.clients i =
        st.server.clients i := by
    intro i hi
    simp only [handleClientEvent, hcls1]
    simp [hi]
  have hmsgs : (handleClientEvent (handleClientEvent st fd (.data nickAliceLine)).1 fd
      (.data line)).2 =
      broadcast_message (handleClientEvent st fd (.data nickAliceLine)).1.server
        (cstr line) fd false := by
    simp only [handleClientEvent, hchat]
  have hsn : senderName (handleClientEvent st fd (.data nickAliceLine)).1.server fd =
      "Alice".toList := by
    unfold senderName
    rw [h1]
    rfl
  have htake : ∀ X : List Char,
      ("Alice".toList ++ crlf ++ X).take 255 = "Alice".toList ++ crlf ++ X.take 248 :=
    fun X => rfl
  have hname : ∀ X : List Char,
      ("Alice".toList ++ crlf ++ X).takeWhile (· != '\r') = "Alice".toList :=
    fun X => rfl
  refine ⟨by rw [h1]; exact rfl, ?_, ?_⟩
  · intro r hr
    rw [hmsgs] at hr
    obtain ⟨-, -, hne, hframe⟩ := mem_broadcast hr
    rw [if_neg (by simp), hsn] at hframe
    unfold encodeFrame at hframe
    rw [htake] at hframe
    refine ⟨by rw [hframe], ?_, hne⟩
    rw [hframe]
    exact hname ((cstr line).take 248)
  · rw [hmsgs, broadcast_map_fst]
    apply List.filter_congr
    intro i hi
    by_cases hif : i = fd
    · simp [hif]
    · rw [h1b i hif]

/-- Witness for C5: in stC5 slot 1 renames to Alice and then sends yo; slot 3
receives it from Alice, slot 1 receives nothing. -/
theorem C5_nick_trimmed_alice_witness :
    (stC5.server.clients 1 = some (mkClient 1)) ∧
    (classify "yo\n".toList = .chat "yo\n".toList) ∧
    (((handleClientEvent stC5 1 (.data nickAliceLine)).1.server.clients 1).map displayName =
      some "Alice".toList) ∧
    (∀ r ∈ (handleClientEvent (handleClientEvent stC5 1 (.data nickAliceLine)).1 1
        (.data "yo\n".toList)).2,
        r.2.1 = "Alice".toList ++ crlf ++ (cstr "yo\n".toList).take 248 ∧
        r.2.1.takeWhile (· != '\r') = "Alice".toList ∧
        r.1 ≠ 1) ∧
    ((handleClientEvent (handleClientEvent stC5 1 (.data nickAliceLine)).1 1
        (.data "yo\n".toList)).2.map (fun r => r.1) =
      (List.range MAX_CLIENTS).filter (fun i => (stC5.server.clients i).isSome && i != 1)) := by
  have h := C5_nick_trimmed_alice stC5 1 (mkClient 1) "yo\n".toList (by decide) (by decide)
  exact ⟨by decide, by decide, h.1, h.2.1, h.2.2⟩

/-- Concrete state for C9: one client in slot 5. -/
def stC9 : LoopState :=
  { server := { fd := 0, clients := fun k => if k = 5 then some (mkClient 5) else none },
    epollSet := [5], freed := [] }

/-- C9 as stated is false: a /nick line whose argument is purely whitespace
trims to the empty string, and the rename then copies that empty string over
the nick field, leaving the display name empty — the client in slot 5 goes
from anon:5 to the empty name. -/
theorem C9_counterexample :
    ((handleClientEvent stC9 5 (.data "/nick   \n".toList)).1.server.clients 5).map
        displayName = some [] ∧
    displayName (mkClient 5) = "anon:5".toList := by
  decide

/-- C9 (amended): the display name is non-empty at registration — it defaults
to anon:identifier — and stays non-empty across any rename whose requested
name still contains a non-whitespace character (trims to a non-empty string);
but a /nick whose argument trims to the empty string does empty it. -/
theorem C9_nonempty_unless_trim_empty (fd : Nat) (c : Client) (raw : List Char)
    (ht : trim_string (cstr raw) ≠ []) :
    displayName (mkClient fd) ≠ [] ∧ displayName (handleNick c raw) ≠ [] := by
  constructor
  · have h1 : (displayName (mkClient fd)).head? = some 'a' := rfl
    intro hEmpty
    rw [hEmpty] at h1
    simp at h1
  · obtain ⟨a, t2, hat⟩ := List.exists_cons_of_ne_nil ht
    have ha : (a != nulC) = true := by
      have hmem : a ∈ trim_string (cstr raw) := by
        rw [hat]; exact List.mem_cons_self a t2
      exact (mem_cstr (mem_trim hmem)).2
    have hn : (trim_string (cstr raw)).length ≤ nickCopyLen raw := by
      unfold nickCopyLen
      rw [if_neg ht]
      omega
    have hall : ∀ x ∈ trim_string (cstr raw), (x != nulC) = true := by
      intro x hx
      exact (mem_cstr (mem_trim hx)).2
    have hw : strncpyWrite (trim_string (cstr raw)) (nickCopyLen raw) =
        trim_string (cstr raw) ++
          List.replicate (nickCopyLen raw - (trim_string (cstr raw)).length) nulC := by
      unfold strncpyWrite
      rw [cstr_of_all hall, List.take_of_length_le hn]
    intro hEmpty
    unfold displayName handleNick strncpyInto at hEmpty
    rw [hw, hat] at hEmpty
    simp [cstr, List.takeWhile_cons, ha] at hEmpty

/-- Witness for C9: renaming to Bob (newline-terminated) trims to a
non-empty name, and both the fresh client and the renamed one have
non-empty display names. -/
theorem C9_nonempty_unless_trim_empty_witness :
    (trim_string (cstr "Bob\n".toList) ≠ []) ∧
    (displayName (mkClient 7) ≠ [] ∧
      displayName (handleNick (mkClient 7) "Bob\n".toList) ≠ []) :=
  ⟨by decide, C9_nonempty_unless_trim_empty 7 (mkClient 7) "Bob\n".toList (by decide)⟩

end Chatlite
